import Mathlib

/-!
Verification of the layered ETL pipeline in
`00 - Pipeline ELT utilizando Python e Duckdb/scripts/ingestion.py`.

The script is embedded shallowly:

* the DuckDB database file is a record of four optional tables
  (`none` models an absent table);
* timestamps produced by `datetime.now().strftime` at one-second
  resolution are modelled as natural numbers (the formatted string
  order coincides with chronological order at that resolution);
* pandas dataframes are lists of typed rows;
* the `float32` price column is modelled as an exact rational — no
  claim under consideration depends on binary floating-point rounding;
* fallible stages return `Except`/`Option`, mirroring the script's
  `try`/`except` structure.
-/

namespace Ingestion

/-- One row of the bronze table `bronze_produtos` (ingestion.py lines 50-60):
five text payload columns, the ingestion timestamp and the source file name. -/
structure RawRow where
  natbr : String
  maktx : String
  werks : String
  mains : String
  labst : String
  ingest_time : Nat
  file_name : String
deriving DecidableEq, Repr

/-- A CSV file in the landing directory: its file name, header names and
data rows (each row a list of cell strings). -/
structure SourceFile where
  name : String
  header : List String
  rows : List (List String)
deriving DecidableEq, Repr

/-- One row of the silver table `silver_produtos` (lines 154-163), after the
rename at lines 127-133 and the casts at lines 137-143. -/
structure SilverRow where
  id : Int
  prod_name : String
  id_category : String
  supplier : Int
  price : Rat
  ingest_time : Nat
deriving DecidableEq, Repr

/-- One row of the fact table `gold_produtos_fat` (lines 189-195). -/
structure FactRow where
  id : Int
  prod_name : String
  price : Rat
deriving DecidableEq, Repr

/-- One row of the dimension table `gold_produtos_dim` (lines 214-220). -/
structure DimRow where
  id : Int
  id_category : String
  supplier : Int
deriving DecidableEq, Repr

/-- The state of the DuckDB database file `dados_duckdb.db`: the four tables
of the pipeline, `none` when a table does not exist. -/
structure DB where
  bronze : Option (List RawRow)
  silver : Option (List SilverRow)
  fato : Option (List FactRow)
  dim : Option (List DimRow)
deriving DecidableEq, Repr

/-! ### Bronze stage: the Raw Layer Loader (lines 44-85) -/

/-- Model of processing one CSV file (lines 71-83): `pd.read_csv` followed by
the positional `INSERT INTO bronze_produtos SELECT * FROM df`.  The insert
succeeds exactly when the dataframe has five payload columns (plus the two
metadata columns added at lines 78-79); DuckDB binds the columns of a
`SELECT *` insert by position, so the header NAMES are never compared with
the bronze schema.  A file whose column count differs raises inside the
`try` block and yields `none`.  Files are modelled as rectangular. -/
def loadFile (ts : Nat) (f : SourceFile) : Option (List RawRow) :=
  if f.header.length = 5 ∧ (∀ r ∈ f.rows, r.length = 5) then
    some (f.rows.map (fun row =>
      ⟨row.getD 0 "", row.getD 1 "", row.getD 2 "", row.getD 3 "",
       row.getD 4 "", ts, f.name⟩))
  else none

/-- The `for file in csv_files` loop (lines 71-85): each file is stamped with
its own wall-clock timestamp `clock i` (line 74 runs once per file); a file
that raises is logged and skipped (lines 84-85) and the loop continues. -/
def runLoaderAux (clock : Nat → Nat) : Nat → List SourceFile → List RawRow → List RawRow
  | _, [], acc => acc
  | i, f :: fs, acc =>
    match loadFile (clock i) f with
    | some rs => runLoaderAux clock (i + 1) fs (acc ++ rs)
    | none => runLoaderAux clock (i + 1) fs acc

/-- All bronze rows produced by one run of the loader loop over `files`. -/
def runLoader (clock : Nat → Nat) (files : List SourceFile) : List RawRow :=
  runLoaderAux clock 0 files []

/-- The whole bronze stage (lines 44-85): `DROP TABLE IF EXISTS
bronze_produtos` (line 47), recreate the table empty (lines 50-60), then run
the per-file ingestion loop.  Note the drop: the pre-existing bronze table
is discarded by the run itself. -/
def runBronzeStage (clock : Nat → Nat) (files : List SourceFile) (db : DB) : DB :=
  { db with bronze := some (runLoader clock files) }

/-! ### Silver stage: the Deduplicating Transformer (lines 98-167) -/

/-- The `WHERE ingest_time >= '2025-01-01 00:00:00'` filter (line 108),
with the cutoff a parameter. -/
def filtered (cutoff : Nat) (bronze : List RawRow) : List RawRow :=
  bronze.filter (fun r => decide (cutoff ≤ r.ingest_time))

/-- One step of scanning a partition for its latest row: keep the row with
the strictly larger timestamp, the incumbent on a tie. -/
def maxStep (best x : RawRow) : RawRow :=
  if best.ingest_time < x.ingest_time then x else best

/-- The rank-1 row of one key's partition under
`ROW_NUMBER() OVER (PARTITION BY NATBR ORDER BY ingest_time DESC)`
(line 106): a row of maximal ingestion timestamp.  On timestamp ties the SQL
specifies no order; this executable refinement keeps the first maximal row
in table order. -/
def pickLatest : List RawRow → Option RawRow
  | [] => none
  | r :: rs => some (rs.foldl maxStep r)

/-- The deduplication query result (lines 103-113), before column drops and
casts: one maximal-timestamp row per distinct business key of the filtered
bronze rows. -/
def silverRaw (cutoff : Nat) (bronze : List RawRow) : List RawRow :=
  ((filtered cutoff bronze).map RawRow.natbr).dedup.filterMap
    (fun k => pickLatest ((filtered cutoff bronze).filter (fun r => r.natbr == k)))

/-- Digits of a decimal numeral folded into a natural number. -/
def digitsToNat (l : List Char) : Nat :=
  l.foldl (fun a c => a * 10 + (c.toNat - 48)) 0

/-- A non-empty all-digit character list, parsed; anything else is rejected. -/
def parseNatDigits (l : List Char) : Option Nat :=
  if l ≠ [] ∧ (∀ c ∈ l, c.isDigit) then some (digitsToNat l) else none

/-- Model of the pandas `astype('int64')` cast of a text cell (lines 138,
141): an optional leading minus sign followed by decimal digits; anything
else (e.g. a non-numeric key) raises. -/
def parseInt64 (s : String) : Option Int :=
  match s.data with
  | '-' :: rest => (parseNatDigits rest).map (fun n => -(n : Int))
  | l => (parseNatDigits l).map (fun n => (n : Int))

/-- An unsigned decimal numeral with an optional fractional part. -/
def parsePosPrice (l : List Char) : Option Rat :=
  match l.splitOn '.' with
  | [d] => (parseNatDigits d).map (fun n => (n : Rat))
  | [d, fr] =>
    match parseNatDigits d, parseNatDigits fr with
    | some n, some m => some ((n : Rat) + (m : Rat) / ((10 : Rat) ^ fr.length))
    | _, _ => none
  | _ => none

/-- Model of the pandas `astype('float32')` cast of the price cell
(line 142), as an exact rational: optional sign, digits, optional fractional
digits.  Binary rounding is not modelled; no claim depends on it. -/
def parsePrice (s : String) : Option Rat :=
  match s.data with
  | '-' :: rest => (parsePosPrice rest).map (fun q => -q)
  | l => parsePosPrice l

/-- Lines 124-149 applied to one deduplicated row: drop the bookkeeping
columns, rename to business vocabulary, cast `id` and `supplier` to int64
and `price` to float, and stamp the processing timestamp (line 149).
`none` models the cast raising. -/
def castRow (procTime : Nat) (r : RawRow) : Option SilverRow :=
  match parseInt64 r.natbr, parseInt64 r.mains, parsePrice r.labst with
  | some i, some sup, some p =>
    some { id := i, prod_name := r.maktx, id_category := r.werks,
           supplier := sup, price := p, ingest_time := procTime }
  | _, _, _ => none

/-- The dataframe-wide `astype` (lines 137-143): all rows cast, or the whole
stage raises — pandas converts a column atomically, so a single bad cell
fails the entire conversion with no partial result. -/
def castAll (procTime : Nat) : List RawRow → Option (List SilverRow)
  | [] => some []
  | r :: rs =>
    match castRow procTime r, castAll procTime rs with
    | some s, some ss => some (s :: ss)
    | _, _ => none

/-- The silver stage (lines 98-167): dedup query, transform and cast, and
only after the cast succeeded `DROP TABLE IF EXISTS silver_produtos`,
recreate and bulk insert (lines 152-166).  A cast failure propagates out of
the script (line 146 re-raises), reaching no DDL on the silver table. -/
def runSilverStage (cutoff procTime : Nat) (db : DB) : Except String DB :=
  match db.bronze with
  | none => Except.error "bronze table missing"
  | some rows =>
    match castAll procTime (silverRaw cutoff rows) with
    | none => Except.error "type conversion failed"
    | some s => Except.ok { db with silver := some s }

/-- The silver table on disk once the silver stage has either finished or
aborted: on abort the pre-existing table survives untouched, because the
`DROP` at line 152 only runs after the casts at lines 137-143 succeeded. -/
def silverTableAfter (cutoff procTime : Nat) (db : DB) : Option (List SilverRow) :=
  match runSilverStage cutoff procTime db with
  | Except.ok d => d.silver
  | Except.error _ => db.silver

/-! ### Gold stage: the Dimensional Splitter (lines 176-227) -/

/-- The projection of a current-state row onto the fact columns. -/
def factProj (r : SilverRow) : FactRow :=
  { id := r.id, prod_name := r.prod_name, price := r.price }

/-- The projection of a current-state row onto the dimension columns. -/
def dimProj (r : SilverRow) : DimRow :=
  { id := r.id, id_category := r.id_category, supplier := r.supplier }

/-- `SELECT DISTINCT id, prod_name, price FROM silver_produtos`
(lines 181-184). -/
def factOf (s : List SilverRow) : List FactRow :=
  (s.map factProj).dedup

/-- `SELECT DISTINCT id, id_category, supplier FROM silver_produtos`
(lines 206-209). -/
def dimOf (s : List SilverRow) : List DimRow :=
  (s.map dimProj).dedup

/-- The gold stage (lines 176-227): drop and recreate the fact and dimension
tables from the silver table.  A storage failure would propagate (lines
200-202, 225-227 re-raise). -/
def runGoldStage (db : DB) : Except String DB :=
  match db.silver with
  | none => Except.error "silver table missing"
  | some s => Except.ok { db with fato := some (factOf s), dim := some (dimOf s) }

/-- Stages 4.2 and 4.3 in sequence, as re-run over an existing database. -/
def runSilverGold (cutoff procTime : Nat) (db : DB) : Except String DB :=
  match runSilverStage cutoff procTime db with
  | Except.error e => Except.error e
  | Except.ok d => runGoldStage d

/-- The whole pipeline run: bronze, then silver, then gold. -/
def runPipeline (clock : Nat → Nat) (cutoff procTime : Nat)
    (files : List SourceFile) (db : DB) : Except String DB :=
  runSilverGold cutoff procTime (runBronzeStage clock files db)

/-- Declarative semantics of the window query at lines 103-113 with the tie
order left open, as the SQL leaves it: `out` is any selection of exactly one
maximal-timestamp row per business key of the filtered bronze rows. -/
def IsDedupChoice (cutoff : Nat) (bronze out : List RawRow) : Prop :=
  (∀ r ∈ out, r ∈ filtered cutoff bronze ∧
    ∀ r2 ∈ filtered cutoff bronze, r2.natbr = r.natbr → r2.ingest_time ≤ r.ingest_time) ∧
  ∀ k ∈ (filtered cutoff bronze).map RawRow.natbr,
    out.countP (fun r => r.natbr == k) = 1

/-! ### Helper lemmas about the latest-row scan -/

lemma maxStep_cases (b x : RawRow) : maxStep b x = b ∨ maxStep b x = x := by
  unfold maxStep; split
  · exact Or.inr rfl
  · exact Or.inl rfl

lemma le_maxStep_left (b x : RawRow) : b.ingest_time ≤ (maxStep b x).ingest_time := by
  unfold maxStep; split
  · omega
  · exact le_rfl

lemma le_maxStep_right (b x : RawRow) : x.ingest_time ≤ (maxStep b x).ingest_time := by
  unfold maxStep; split
  · exact le_rfl
  · omega

lemma foldl_maxStep_mem (rs : List RawRow) (b : RawRow) :
    rs.foldl maxStep b = b ∨ rs.foldl maxStep b ∈ rs := by
  induction rs generalizing b with
  | nil => exact Or.inl rfl
  | cons x xs ih =>
    simp only [List.foldl_cons]
    rcases ih (maxStep b x) with h | h
    · rcases maxStep_cases b x with hc | hc
      · exact Or.inl (h.trans hc)
      · exact Or.inr (by rw [h, hc]; exact List.mem_cons_self _ _)
    · exact Or.inr (List.mem_cons_of_mem _ h)

lemma le_foldl_maxStep_init (rs : List RawRow) (b : RawRow) :
    b.ingest_time ≤ (rs.foldl maxStep b).ingest_time := by
  induction rs generalizing b with
  | nil => exact le_rfl
  | cons x xs ih =>
    simp only [List.foldl_cons]
    exact (le_maxStep_left b x).trans (ih (maxStep b x))

lemma le_foldl_maxStep_mem (rs : List RawRow) (b : RawRow) :
    ∀ x ∈ rs, x.ingest_time ≤ (rs.foldl maxStep b).ingest_time := by
  induction rs generalizing b with
  | nil => intro x hx; cases hx
  | cons y ys ih =>
    intro x hx
    simp only [List.foldl_cons]
    rcases List.mem_cons.mp hx with h | h
    · subst h
      exact (le_maxStep_right b x).trans (le_foldl_maxStep_init ys (maxStep b x))
    · exact ih (maxStep b y) x h

lemma pickLatest_mem {l : List RawRow} {r : RawRow} (h : pickLatest l = some r) :
    r ∈ l := by
  cases l with
  | nil => cases h
  | cons b rs =>
    simp only [pickLatest, Option.some.injEq] at h
    rcases foldl_maxStep_mem rs b with hm | hm
    · rw [← h, hm]; exact List.mem_cons_self _ _
    · rw [← h]; exact List.mem_cons_of_mem _ hm

lemma pickLatest_max {l : List RawRow} {r : RawRow} (h : pickLatest l = some r) :
    ∀ x ∈ l, x.ingest_time ≤ r.ingest_time := by
  cases l with
  | nil => cases h
  | cons b rs =>
    simp only [pickLatest, Option.some.injEq] at h
    intro x hx
    rcases List.mem_cons.mp hx with hm | hm
    · rw [← h, hm]; exact le_foldl_maxStep_init rs b
    · rw [← h]; exact le_foldl_maxStep_mem rs b x hm

lemma pickLatest_isSome {l : List RawRow} (h : l ≠ []) :
    ∃ r, pickLatest l = some r := by
  cases l with
  | nil => exact absurd rfl h
  | cons b rs => exact ⟨rs.foldl maxStep b, rfl⟩

/-! ### Helper lemmas about the dedup query -/

/-- Shorthand for one key's partition of the filtered bronze rows. -/
def keyRows (cutoff : Nat) (bronze : List RawRow) (k : String) : List RawRow :=
  (filtered cutoff bronze).filter (fun r => r.natbr == k)

lemma silverRaw_eq (cutoff : Nat) (bronze : List RawRow) :
    silverRaw cutoff bronze =
      ((filtered cutoff bronze).map RawRow.natbr).dedup.filterMap
        (fun k => pickLatest (keyRows cutoff bronze k)) := rfl

lemma keyRows_natbr {cutoff : Nat} {bronze : List RawRow} {k : String} {r : RawRow}
    (h : r ∈ keyRows cutoff bronze k) : r ∈ filtered cutoff bronze ∧ r.natbr = k := by
  have := List.mem_filter.mp h
  exact ⟨this.1, by simpa using this.2⟩

lemma mem_keyRows {cutoff : Nat} {bronze : List RawRow} {r : RawRow}
    (hf : r ∈ filtered cutoff bronze) : r ∈ keyRows cutoff bronze r.natbr := by
  exact List.mem_filter.mpr ⟨hf, by simp⟩

lemma silverRaw_mem {cutoff : Nat} {bronze : List RawRow} {r : RawRow}
    (h : r ∈ silverRaw cutoff bronze) :
    r ∈ filtered cutoff bronze ∧
      ∀ r2 ∈ filtered cutoff bronze, r2.natbr = r.natbr → r2.ingest_time ≤ r.ingest_time := by
  rw [silverRaw_eq] at h
  rcases List.mem_filterMap.mp h with ⟨k, _, hp⟩
  have hmem := pickLatest_mem hp
  have hk := keyRows_natbr hmem
  refine ⟨hk.1, fun r2 h2 he => ?_⟩
  have : r2 ∈ keyRows cutoff bronze k := by
    rw [← hk.2, ← he]; exact mem_keyRows h2
  exact pickLatest_max hp r2 this

lemma silverRaw_pick_natbr {cutoff : Nat} {bronze : List RawRow} {k : String} {r : RawRow}
    (h : pickLatest (keyRows cutoff bronze k) = some r) : r.natbr = k :=
  (keyRows_natbr (pickLatest_mem h)).2

lemma keyRows_ne_nil {cutoff : Nat} {bronze : List RawRow} {k : String}
    (hk : k ∈ (filtered cutoff bronze).map RawRow.natbr) :
    keyRows cutoff bronze k ≠ [] := by
  rcases List.mem_map.mp hk with ⟨r, hr, hrk⟩
  intro hnil
  have : r ∈ keyRows cutoff bronze k := by rw [← hrk]; exact mem_keyRows hr
  rw [hnil] at this
  cases this

lemma countP_filterMap_pick (cutoff : Nat) (bronze : List RawRow) (k : String)
    (ks : List String) (hnd : ks.Nodup) (hk : k ∈ ks)
    (hsome : keyRows cutoff bronze k ≠ []) :
    (ks.filterMap (fun k0 => pickLatest (keyRows cutoff bronze k0))).countP
      (fun r => r.natbr == k) = 1 := by
  induction ks with
  | nil => cases hk
  | cons k0 ks ih =>
    have hnd0 : k0 ∉ ks := (List.nodup_cons.mp hnd).1
    have hndt : ks.Nodup := (List.nodup_cons.mp hnd).2
    rcases List.mem_cons.mp hk with hkk | hkk
    · subst hkk
      rcases pickLatest_isSome hsome with ⟨r, hr⟩
      rw [List.filterMap_cons, hr]
      rw [List.countP_cons]
      have hrk : r.natbr = k := silverRaw_pick_natbr hr
      have hzero : (ks.filterMap (fun k0 => pickLatest (keyRows cutoff bronze k0))).countP
          (fun r => r.natbr == k) = 0 := by
        apply List.countP_eq_zero.mpr
        intro x hx
        rcases List.mem_filterMap.mp hx with ⟨k1, hk1, hp1⟩
        have : x.natbr = k1 := silverRaw_pick_natbr hp1
        simp only [beq_iff_eq, this]
        intro h
        exact hnd0 (h ▸ hk1)
      rw [hzero]
      simp [hrk]
    · have hne : k ≠ k0 := fun h => hnd0 (h ▸ hkk)
      rw [List.filterMap_cons]
      cases hp0 : pickLatest (keyRows cutoff bronze k0) with
      | none => exact ih hndt hkk
      | some r0 =>
        rw [List.countP_cons]
        have : r0.natbr = k0 := silverRaw_pick_natbr hp0
        simp only [this, beq_iff_eq]
        rw [if_neg (fun h => hne h.symm)]
        rw [ih hndt hkk]

lemma silverRaw_countP {cutoff : Nat} {bronze : List RawRow} {k : String}
    (hk : k ∈ (filtered cutoff bronze).map RawRow.natbr) :
    (silverRaw cutoff bronze).countP (fun r => r.natbr == k) = 1 := by
  rw [silverRaw_eq]
  exact countP_filterMap_pick cutoff bronze k _ (List.nodup_dedup _)
    (List.mem_dedup.mpr hk) (keyRows_ne_nil hk)

/-! ### Helper lemmas about the casts -/

/-- Overwrite a silver row's processing timestamp. -/
def setTime (t : Nat) (x : SilverRow) : SilverRow := { x with ingest_time := t }

lemma castRow_setTime {t : Nat} {r : RawRow} {x : SilverRow}
    (h : castRow t r = some x) (t2 : Nat) : castRow t2 r = some (setTime t2 x) := by
  unfold castRow at h ⊢
  cases h1 : parseInt64 r.natbr with
  | none => rw [h1] at h; cases h
  | some i =>
    cases h2 : parseInt64 r.mains with
    | none => rw [h1, h2] at h; cases h
    | some sup =>
      cases h3 : parsePrice r.labst with
      | none => rw [h1, h2, h3] at h; cases h
      | some p =>
        rw [h1, h2, h3] at h
        simp only [Option.some.injEq] at h
        simp [← h, setTime]

lemma castRow_time_eq {t : Nat} {r : RawRow} {x : SilverRow}
    (h : castRow t r = some x) : x.ingest_time = t := by
  unfold castRow at h
  cases h1 : parseInt64 r.natbr with
  | none => rw [h1] at h; cases h
  | some i =>
    cases h2 : parseInt64 r.mains with
    | none => rw [h1, h2] at h; cases h
    | some sup =>
      cases h3 : parsePrice r.labst with
      | none => rw [h1, h2, h3] at h; cases h
      | some p =>
        rw [h1, h2, h3] at h
        simp only [Option.some.injEq] at h
        rw [← h]

lemma castAll_mem {t : Nat} {l : List RawRow} {s : List SilverRow}
    (h : castAll t l = some s) :
    ∀ r ∈ l, ∃ sr ∈ s, castRow t r = some sr := by
  induction l generalizing s with
  | nil => intro r hr; cases hr
  | cons a l ih =>
    intro r hr
    unfold castAll at h
    cases h1 : castRow t a with
    | none => rw [h1] at h; cases h
    | some x =>
      cases h2 : castAll t l with
      | none => rw [h1, h2] at h; cases h
      | some xs =>
        rw [h1, h2] at h
        simp only [Option.some.injEq] at h
        rcases List.mem_cons.mp hr with hra | hrl
        · exact ⟨x, by rw [← h]; exact List.mem_cons_self _ _, hra ▸ h1⟩
        · rcases ih h2 r hrl with ⟨sr, hsr, hc⟩
          exact ⟨sr, by rw [← h]; exact List.mem_cons_of_mem _ hsr, hc⟩

lemma castAll_none {t : Nat} {l : List RawRow}
    (h : ∃ r ∈ l, castRow t r = none) : castAll t l = none := by
  induction l with
  | nil => rcases h with ⟨r, hr, _⟩; cases hr
  | cons a l ih =>
    rcases h with ⟨r, hr, hc⟩
    unfold castAll
    rcases List.mem_cons.mp hr with hra | hrl
    · have hca : castRow t a = none := by rw [← hra]; exact hc
      rw [hca]
    · rw [ih ⟨r, hrl, hc⟩]
      cases castRow t a <;> rfl

lemma castAll_setTime {t : Nat} {l : List RawRow} {s : List SilverRow}
    (h : castAll t l = some s) (t2 : Nat) :
    castAll t2 l = some (s.map (setTime t2)) := by
  induction l generalizing s with
  | nil =>
    unfold castAll at h
    simp only [Option.some.injEq] at h
    rw [← h]; rfl
  | cons a l ih =>
    unfold castAll at h ⊢
    cases h1 : castRow t a with
    | none => rw [h1] at h; cases h
    | some x =>
      cases h2 : castAll t l with
      | none => rw [h1, h2] at h; cases h
      | some xs =>
        rw [h1, h2] at h
        simp only [Option.some.injEq] at h
        rw [castRow_setTime h1 t2, ih h2]
        rw [← h]
        rfl

lemma castAll_times {t : Nat} {l : List RawRow} {s : List SilverRow}
    (h : castAll t l = some s) : ∀ x ∈ s, x.ingest_time = t := by
  induction l generalizing s with
  | nil =>
    unfold castAll at h
    simp only [Option.some.injEq] at h
    rw [← h]; intro x hx; cases hx
  | cons a l ih =>
    unfold castAll at h
    cases h1 : castRow t a with
    | none => rw [h1] at h; cases h
    | some x =>
      cases h2 : castAll t l with
      | none => rw [h1, h2] at h; cases h
      | some xs =>
        rw [h1, h2] at h
        simp only [Option.some.injEq] at h
        intro y hy
        rw [← h] at hy
        rcases List.mem_cons.mp hy with hya | hyl
        · rw [hya]; exact castRow_time_eq h1
        · exact ih h2 y hyl

/-! ### Helper lemmas about the ingestion loop -/

lemma runLoaderAux_append (clock : Nat → Nat) (fs : List SourceFile) :
    ∀ i acc, ∃ tail, runLoaderAux clock i fs acc = acc ++ tail := by
  induction fs with
  | nil => intro i acc; exact ⟨[], by simp [runLoaderAux]⟩
  | cons f fs ih =>
    intro i acc
    unfold runLoaderAux
    cases loadFile (clock i) f with
    | none => exact ih (i + 1) acc
    | some rs =>
      rcases ih (i + 1) (acc ++ rs) with ⟨tail, ht⟩
      exact ⟨rs ++ tail, by simp [ht]⟩

lemma runLoaderAux_mem_of_load (clock : Nat → Nat) (fs : List SourceFile) :
    ∀ i acc (j : Nat) (hj : j < fs.length) (rs : List RawRow),
      loadFile (clock (i + j)) (fs.get ⟨j, hj⟩) = some rs →
      ∀ r ∈ rs, r ∈ runLoaderAux clock i fs acc := by
  induction fs with
  | nil => intro i acc j hj; cases hj
  | cons f fs ih =>
    intro i acc j hj rs hload r hr
    cases j with
    | zero =>
      simp only [List.get] at hload
      unfold runLoaderAux
      rw [show clock (i + 0) = clock i by rw [Nat.add_zero]] at hload
      rw [hload]
      show r ∈ runLoaderAux clock (i + 1) fs (acc ++ rs)
      rcases runLoaderAux_append clock fs (i + 1) (acc ++ rs) with ⟨tail, ht⟩
      rw [ht]
      exact List.mem_append.mpr (Or.inl (List.mem_append.mpr (Or.inr hr)))
    | succ j0 =>
      have hj0 : j0 < fs.length := Nat.lt_of_succ_lt_succ hj
      have hidx : i + (j0 + 1) = (i + 1) + j0 := by omega
      have hget : (f :: fs).get ⟨j0 + 1, hj⟩ = fs.get ⟨j0, hj0⟩ := rfl
      rw [hget, hidx] at hload
      unfold runLoaderAux
      cases loadFile (clock i) f with
      | none => exact ih (i + 1) acc j0 hj0 rs hload r hr
      | some rs0 => exact ih (i + 1) (acc ++ rs0) j0 hj0 rs hload r hr

lemma castAll_length {t : Nat} {l : List RawRow} {s : List SilverRow}
    (h : castAll t l = some s) : s.length = l.length := by
  induction l generalizing s with
  | nil =>
    unfold castAll at h
    simp only [Option.some.injEq] at h
    subst h
    rfl
  | cons a l ih =>
    unfold castAll at h
    cases h1 : castRow t a with
    | none => rw [h1] at h; cases h
    | some x =>
      cases h2 : castAll t l with
      | none => rw [h1, h2] at h; cases h
      | some xs =>
        rw [h1, h2] at h
        simp only [Option.some.injEq] at h
        rw [← h]
        simp [ih h2]

lemma silverRaw_exists_key {cutoff : Nat} {bronze : List RawRow} {k : String}
    (hk : k ∈ (filtered cutoff bronze).map RawRow.natbr) :
    ∃ r ∈ silverRaw cutoff bronze, r.natbr = k := by
  rcases pickLatest_isSome (keyRows_ne_nil hk) with ⟨r, hr⟩
  refine ⟨r, ?_, silverRaw_pick_natbr hr⟩
  rw [silverRaw_eq]
  exact List.mem_filterMap.mpr ⟨k, List.mem_dedup.mpr hk, hr⟩

/-! ### Inversion of the stage functions -/

lemma runSilverStage_eq (cutoff t : Nat) (db : DB) (rows : List RawRow)
    (hb : db.bronze = some rows) :
    runSilverStage cutoff t db =
      match castAll t (silverRaw cutoff rows) with
      | none => Except.error "type conversion failed"
      | some s => Except.ok { db with silver := some s } := by
  unfold runSilverStage
  rw [hb]

lemma runSilverStage_ok_inv {cutoff t : Nat} {db d : DB}
    (h : runSilverStage cutoff t db = Except.ok d) :
    ∃ rows s, db.bronze = some rows ∧ castAll t (silverRaw cutoff rows) = some s ∧
      d = { db with silver := some s } := by
  cases hb : db.bronze with
  | none =>
    have hbad : runSilverStage cutoff t db = Except.error "bronze table missing" := by
      unfold runSilverStage
      rw [hb]
    rw [hbad] at h
    cases h
  | some rows =>
    rw [runSilverStage_eq cutoff t db rows hb] at h
    cases hc : castAll t (silverRaw cutoff rows) with
    | none => rw [hc] at h; cases h
    | some s =>
      rw [hc] at h
      have h2 : (Except.ok { db with silver := some s } : Except String DB) = Except.ok d := h
      rw [hb] at h2
      exact ⟨rows, s, rfl, hc, (Except.ok.inj h2).symm⟩

lemma runSilverGold_eq (cutoff t : Nat) (db : DB) (rows : List RawRow) (s : List SilverRow)
    (hb : db.bronze = some rows) (hc : castAll t (silverRaw cutoff rows) = some s) :
    runSilverGold cutoff t db = Except.ok
      { db with silver := some s, fato := some (factOf s), dim := some (dimOf s) } := by
  have h1 : runSilverStage cutoff t db = Except.ok { db with silver := some s } := by
    rw [runSilverStage_eq cutoff t db rows hb, hc]
  unfold runSilverGold
  rw [h1]
  rfl

lemma runSilverGold_ok_inv {cutoff t : Nat} {db d : DB}
    (h : runSilverGold cutoff t db = Except.ok d) :
    ∃ rows s, db.bronze = some rows ∧ castAll t (silverRaw cutoff rows) = some s ∧
      d = { db with silver := some s, fato := some (factOf s), dim := some (dimOf s) } := by
  cases hb : db.bronze with
  | none =>
    have hbad : runSilverGold cutoff t db = Except.error "bronze table missing" := by
      unfold runSilverGold runSilverStage
      rw [hb]
    rw [hbad] at h
    cases h
  | some rows =>
    cases hc : castAll t (silverRaw cutoff rows) with
    | none =>
      have hbad : runSilverGold cutoff t db = Except.error "type conversion failed" := by
        unfold runSilverGold
        rw [runSilverStage_eq cutoff t db rows hb, hc]
      rw [hbad] at h
      cases h
    | some s =>
      rw [runSilverGold_eq cutoff t db rows s hb hc] at h
      rw [hb] at h
      exact ⟨rows, s, rfl, hc, (Except.ok.inj h).symm⟩

/-! ### Concrete fixtures for witnesses and counterexamples -/

/-- A raw row for key 1 with the earlier ingestion timestamp. -/
def rowEarly : RawRow := ⟨"1", "old name", "cat", "7", "10", 1, "a.csv"⟩

/-- A raw row for key 1 with the later ingestion timestamp. -/
def rowLate : RawRow := ⟨"1", "new name", "cat", "7", "12", 2, "a.csv"⟩

/-- A raw row whose business key is not numeric. -/
def rowBadKey : RawRow := ⟨"abc", "x", "cat", "7", "10", 3, "b.csv"⟩

/-- A raw row left over from a previous run. -/
def rowPrev : RawRow := ⟨"9", "prev", "cat", "1", "5", 0, "old.csv"⟩

/-- A database holding two raw versions of key 1. -/
def dbC1 : DB := ⟨some [rowEarly, rowLate], none, none, none⟩

/-- A database with a malformed key in bronze and an existing (empty) silver
table from an earlier run. -/
def dbBad : DB := ⟨some [rowBadKey], some [], none, none⟩

/-- A database as a previous run left it: one bronze row. -/
def dbPrev : DB := ⟨some [rowPrev], none, none, none⟩

/-- A database with a single clean raw row. -/
def dbOne : DB := ⟨some [rowLate], none, none, none⟩

/-- Result of the silver stage on `dbC1`. -/
def dC1 : DB :=
  match runSilverStage 0 5 dbC1 with
  | Except.ok d => d
  | Except.error _ => dbC1

/-- A landing file with the expected five column names. -/
def goodFile : SourceFile :=
  ⟨"good.csv", ["NATBR", "MAKTX", "WERKS", "MAINS", "LABST"],
   [["1", "n", "c", "7", "10"]]⟩

/-- A landing file with only four columns: its positional insert fails. -/
def fourColFile : SourceFile :=
  ⟨"bad.csv", ["A", "B", "C", "D"], [["1", "2", "3", "4"]]⟩

/-- A five-column landing file whose names match nothing of the schema. -/
def wrongNamesFile : SourceFile :=
  ⟨"wrong.csv", ["A", "B", "C", "D", "E"], [["1", "x", "y", "2", "3"]]⟩

/-- The five column names of the bronze input schema (lines 52-56). -/
def schemaNames : List String := ["NATBR", "MAKTX", "WERKS", "MAINS", "LABST"]

/-! ### C1 -/

/-- C1: after the Deduplicating Transformer succeeds, every business key `k`
of the filtered raw set is represented by exactly one selected row; that row
is a filtered raw row for `k` of maximal ingestion timestamp, and its cast
image is a row of the current-state table, which has exactly one row per
selected raw row. -/
theorem silver_one_latest_row_per_key (cutoff procTime : Nat) (db d : DB)
    (bronze : List RawRow) (hb : db.bronze = some bronze)
    (hs : runSilverStage cutoff procTime db = Except.ok d) :
    ∃ s, d.silver = some s ∧ s.length = (silverRaw cutoff bronze).length ∧
      ∀ k ∈ (filtered cutoff bronze).map RawRow.natbr,
        (silverRaw cutoff bronze).countP (fun r => r.natbr == k) = 1 ∧
        ∃ r, r ∈ filtered cutoff bronze ∧ r.natbr = k ∧
          (∀ r2 ∈ filtered cutoff bronze, r2.natbr = k → r2.ingest_time ≤ r.ingest_time) ∧
          ∃ sr ∈ s, castRow procTime r = some sr := by
  rcases runSilverStage_ok_inv hs with ⟨rows, s, hb2, hc, hd⟩
  have hrows : rows = bronze := Option.some.inj (hb2.symm.trans hb)
  subst hrows
  refine ⟨s, by rw [hd], castAll_length hc, ?_⟩
  intro k hk
  refine ⟨silverRaw_countP hk, ?_⟩
  rcases silverRaw_exists_key hk with ⟨r, hr, hrk⟩
  have hmem := silverRaw_mem hr
  refine ⟨r, hmem.1, hrk, ?_, ?_⟩
  · intro r2 h2 he
    exact hmem.2 r2 h2 (by rw [he, hrk])
  · exact castAll_mem hc r hr

/-- Witness for C1 on a concrete bronze table with two versions of key 1. -/
theorem silver_one_latest_row_per_key_witness :
    ∃ s, dC1.silver = some s ∧ s.length = (silverRaw 0 [rowEarly, rowLate]).length ∧
      ∀ k ∈ (filtered 0 [rowEarly, rowLate]).map RawRow.natbr,
        (silverRaw 0 [rowEarly, rowLate]).countP (fun r => r.natbr == k) = 1 ∧
        ∃ r, r ∈ filtered 0 [rowEarly, rowLate] ∧ r.natbr = k ∧
          (∀ r2 ∈ filtered 0 [rowEarly, rowLate], r2.natbr = k →
            r2.ingest_time ≤ r.ingest_time) ∧
          ∃ sr ∈ s, castRow 5 r = some sr :=
  silver_one_latest_row_per_key 0 5 dbC1 dC1 [rowEarly, rowLate] rfl rfl

/-! ### C2 -/

/-- C2: a failing cast (here a non-numeric business key somewhere in the
deduplicated set) makes the whole silver stage abort, and the pre-existing
current-state table survives untouched, because the `DROP` of the silver
table only runs after the casts succeed. -/
theorem cast_failure_aborts (cutoff procTime : Nat) (db : DB) (bronze : List RawRow)
    (hb : db.bronze = some bronze)
    (hbad : ∃ r ∈ silverRaw cutoff bronze, castRow procTime r = none) :
    (∃ e, runSilverStage cutoff procTime db = Except.error e) ∧
    silverTableAfter cutoff procTime db = db.silver := by
  have hc : castAll procTime (silverRaw cutoff bronze) = none := castAll_none hbad
  have herr : runSilverStage cutoff procTime db = Except.error "type conversion failed" := by
    rw [runSilverStage_eq cutoff procTime db bronze hb, hc]
  refine ⟨⟨_, herr⟩, ?_⟩
  unfold silverTableAfter
  rw [herr]

/-- Witness for C2: the key `"abc"` fails the int64 cast, the stage aborts,
and the silver table of the previous run is still there. -/
theorem cast_failure_aborts_witness :
    (∃ e, runSilverStage 0 5 dbBad = Except.error e) ∧
    silverTableAfter 0 5 dbBad = dbBad.silver :=
  cast_failure_aborts 0 5 dbBad [rowBadKey] rfl
    ⟨rowBadKey, by decide, by decide⟩

/-! ### C3 -/

/-- C3 counterexample: the bronze stage of every run begins with
`DROP TABLE IF EXISTS bronze_produtos` (line 47), so raw rows of a previous
run are deleted by the pipeline core itself, not only by an external
full-reset: running over an empty landing directory leaves the raw table
empty, losing the pre-existing row. -/
theorem raw_table_dropped_each_run :
    dbPrev.bronze = some [rowPrev] ∧
    (runBronzeStage (fun _ => 0) [] dbPrev).bronze = some [] ∧
    rowPrev ∉ ([] : List RawRow) :=
  ⟨rfl, rfl, by decide⟩

/-- C3 amended: every run replaces the raw table wholesale with exactly the
rows loaded from the current file set (the drop at line 47 is part of the
core); within a single run the ingestion loop is append-only — it never
removes rows already inserted. -/
theorem raw_replaced_then_append_only (clock : Nat → Nat) (files : List SourceFile) (db : DB) :
    (runBronzeStage clock files db).bronze = some (runLoader clock files) ∧
    ∀ i fs acc, ∃ tail, runLoaderAux clock i fs acc = acc ++ tail :=
  ⟨rfl, fun i fs acc => runLoaderAux_append clock fs i acc⟩

/-! ### C4 -/

lemma setTime_eq_self {t : Nat} {x : SilverRow} (h : x.ingest_time = t) :
    setTime t x = x := by
  cases x
  unfold setTime
  simp only [SilverRow.mk.injEq, and_true, true_and]
  simp only [SilverRow.ingest_time] at h
  exact h.symm

lemma map_setTime_self {t : Nat} {s : List SilverRow}
    (h : ∀ x ∈ s, x.ingest_time = t) : s.map (setTime t) = s := by
  induction s with
  | nil => rfl
  | cons a l ih =>
    simp only [List.map_cons]
    rw [setTime_eq_self (h a (List.mem_cons_self _ _)),
      ih (fun x hx => h x (List.mem_cons_of_mem _ hx))]

lemma factOf_setTime (t : Nat) (s : List SilverRow) :
    factOf (s.map (setTime t)) = factOf s := by
  unfold factOf
  rw [List.map_map]
  rfl

lemma dimOf_setTime (t : Nat) (s : List SilverRow) :
    dimOf (s.map (setTime t)) = dimOf s := by
  unfold dimOf
  rw [List.map_map]
  rfl

/-- Result of the first silver+gold re-run over `dbOne`, stamped at time 0. -/
def dRun1 : DB :=
  match runSilverGold 0 0 dbOne with
  | Except.ok d => d
  | Except.error _ => dbOne

/-- Result of the second silver+gold re-run, stamped one second later. -/
def dRun2 : DB :=
  match runSilverGold 0 1 dRun1 with
  | Except.ok d => d
  | Except.error _ => dRun1

/-- C4 counterexample: re-running stages 4.2 and 4.3 on an unchanged raw
table does NOT reproduce a byte-identical current-state table, because
line 149 stamps the wall-clock processing time into the `ingest_time`
column: a run one second later differs in that column. -/
theorem rerun_not_byte_identical :
    runSilverGold 0 0 dbOne = Except.ok dRun1 ∧
    runSilverGold 0 1 dRun1 = Except.ok dRun2 ∧
    dRun1.silver ≠ dRun2.silver :=
  ⟨rfl, rfl, by decide⟩

/-- C4 amended: re-running stages 4.2 and 4.3 on an unchanged raw table
reproduces the fact and dimension tables exactly; the current-state tables
agree row for row except in the processing-timestamp column stamped at line
149, and are identical precisely when the two wall-clock stamps coincide. -/
theorem rerun_stable_up_to_timestamp (cutoff t1 t2 : Nat) (db d1 d2 : DB)
    (h1 : runSilverGold cutoff t1 db = Except.ok d1)
    (h2 : runSilverGold cutoff t2 d1 = Except.ok d2) :
    d2.fato = d1.fato ∧ d2.dim = d1.dim ∧
    (∃ s1 s2, d1.silver = some s1 ∧ d2.silver = some s2 ∧
      s1.map (setTime 0) = s2.map (setTime 0)) ∧
    (t1 = t2 → d2.silver = d1.silver) := by
  rcases runSilverGold_ok_inv h1 with ⟨rows, s1, hb1, hc1, hd1⟩
  rcases runSilverGold_ok_inv h2 with ⟨rows2, s2, hb2, hc2, hd2⟩
  have hb1' : d1.bronze = some rows := by rw [hd1]; exact hb1
  have hrows : rows2 = rows := Option.some.inj (hb2.symm.trans hb1')
  subst hrows
  have hs2 : s2 = s1.map (setTime t2) :=
    (Option.some.inj ((castAll_setTime hc1 t2).symm.trans hc2)).symm
  refine ⟨?_, ?_, ?_, ?_⟩
  · rw [hd1, hd2, hs2, factOf_setTime]
  · rw [hd1, hd2, hs2, dimOf_setTime]
  · refine ⟨s1, s2, by rw [hd1], by rw [hd2], ?_⟩
    rw [hs2, List.map_map]
    rfl
  · intro ht
    rw [hd1, hd2, hs2, ← ht]
    rw [map_setTime_self (castAll_times hc1)]

/-- Witness for the C4 amended theorem at the concrete database `dbOne`. -/
theorem rerun_stable_up_to_timestamp_witness :
    dRun2.fato = dRun1.fato ∧ dRun2.dim = dRun1.dim ∧
    (∃ s1 s2, dRun1.silver = some s1 ∧ dRun2.silver = some s2 ∧
      s1.map (setTime 0) = s2.map (setTime 0)) ∧
    ((0 : Nat) = 1 → dRun2.silver = dRun1.silver) :=
  rerun_stable_up_to_timestamp 0 0 1 dbOne dRun1 dRun2 rfl rfl

/-! ### C5 -/

/-- C5: the gold stage writes the fact table as the distinct projection of
the current-state table onto (id, prod_name, price) and the dimension table
as the distinct projection onto (id, id_category, supplier); each output has
at most as many rows as the current-state table, and every business key of
the current-state table appears in both outputs. -/
theorem gold_projections (db d : DB) (s : List SilverRow)
    (hs : db.silver = some s) (h : runGoldStage db = Except.ok d) :
    d.fato = some (factOf s) ∧ d.dim = some (dimOf s) ∧
    (factOf s).length ≤ s.length ∧ (dimOf s).length ≤ s.length ∧
    (∀ r ∈ s, ∃ f ∈ factOf s, f.id = r.id) ∧
    (∀ r ∈ s, ∃ g ∈ dimOf s, g.id = r.id) := by
  have h2 : (Except.ok { db with fato := some (factOf s), dim := some (dimOf s) } :
      Except String DB) = Except.ok d := by
    rw [← h]
    unfold runGoldStage
    rw [hs]
  have hd : d = { db with fato := some (factOf s), dim := some (dimOf s) } :=
    (Except.ok.inj h2).symm
  refine ⟨by rw [hd], by rw [hd], ?_, ?_, ?_, ?_⟩
  · calc (factOf s).length ≤ (s.map factProj).length :=
          List.Sublist.length_le (List.dedup_sublist _)
      _ = s.length := List.length_map _ _
  · calc (dimOf s).length ≤ (s.map dimProj).length :=
          List.Sublist.length_le (List.dedup_sublist _)
      _ = s.length := List.length_map _ _
  · exact fun r hr => ⟨_, List.mem_dedup.mpr (List.mem_map_of_mem _ hr), rfl⟩
  · exact fun r hr => ⟨_, List.mem_dedup.mpr (List.mem_map_of_mem _ hr), rfl⟩

/-- One concrete current-state row. -/
def sRow : SilverRow := ⟨1, "n", "c", 7, 10, 5⟩

/-- A database whose silver table holds one row. -/
def dbGold : DB := ⟨none, some [sRow], none, none⟩

/-- Result of the gold stage on `dbGold`. -/
def dGold : DB :=
  match runGoldStage dbGold with
  | Except.ok d => d
  | Except.error _ => dbGold

/-- Witness for C5 on the one-row current-state table. -/
theorem gold_projections_witness :
    dGold.fato = some (factOf [sRow]) ∧ dGold.dim = some (dimOf [sRow]) ∧
    (factOf [sRow]).length ≤ [sRow].length ∧ (dimOf [sRow]).length ≤ [sRow].length ∧
    (∀ r ∈ [sRow], ∃ f ∈ factOf [sRow], f.id = r.id) ∧
    (∀ r ∈ [sRow], ∃ g ∈ dimOf [sRow], g.id = r.id) :=
  gold_projections dbGold dGold [sRow] rfl rfl

/-! ### C6 -/

/-- C6: per-file isolation of the ingestion loop — whatever the other files
look like (malformed ones included), every row of a file that loads
successfully is appended to the raw table, and the bronze stage always
completes, leaving a well-defined raw table. -/
theorem file_isolation (clock : Nat → Nat) (files : List SourceFile) (db : DB)
    (j : Nat) (hj : j < files.length) (rs : List RawRow)
    (hload : loadFile (clock j) (files.get ⟨j, hj⟩) = some rs) :
    (∀ r ∈ rs, r ∈ runLoader clock files) ∧
    (runBronzeStage clock files db).bronze = some (runLoader clock files) := by
  constructor
  · intro r hr
    have h0 : loadFile (clock (0 + j)) (files.get ⟨j, hj⟩) = some rs := by
      rw [Nat.zero_add]
      exact hload
    exact runLoaderAux_mem_of_load clock files 0 [] j hj rs h0 r hr
  · rfl

/-- Witness for C6: the malformed four-column file sits at index 0 and the
well-formed file at index 1 is still ingested; its row lands in bronze. -/
theorem file_isolation_witness :
    (⟨"1", "n", "c", "7", "10", 1, "good.csv"⟩ : RawRow) ∈
      runLoader (fun i => i) [fourColFile, goodFile] :=
  (file_isolation (fun i => i) [fourColFile, goodFile] dbPrev 1 (by decide)
    [⟨"1", "n", "c", "7", "10", 1, "good.csv"⟩] rfl).1 _ (by decide)

/-! ### C7 -/

/-- C7 counterexample: a five-column landing file whose header names match
none of the schema names is ingested anyway — the bronze insert binds the
columns by position, so unmatched names are not an error and the file's rows
ARE appended to the raw table. -/
theorem wrong_names_still_ingested :
    wrongNamesFile.header ≠ schemaNames ∧
    loadFile 0 wrongNamesFile = some [⟨"1", "x", "y", "2", "3", 0, "wrong.csv"⟩] ∧
    (⟨"1", "x", "y", "2", "3", 0, "wrong.csv"⟩ : RawRow) ∈
      runLoader (fun _ => 0) [wrongNamesFile] :=
  ⟨by decide, by decide, by decide⟩

/-- C7 amended: the loader validates a file only by column count — a file is
rejected, for that file alone, exactly when it does not have five columns,
and a rejected file contributes no rows while the loop moves on to the next
file; column names are never inspected. -/
theorem schema_checked_by_count (clock : Nat → Nat) (i : Nat) (f : SourceFile) :
    ((loadFile (clock i) f).isSome ↔ f.header.length = 5 ∧ ∀ r ∈ f.rows, r.length = 5) ∧
    (loadFile (clock i) f = none →
      ∀ fs acc, runLoaderAux clock i (f :: fs) acc = runLoaderAux clock (i + 1) fs acc) := by
  constructor
  · unfold loadFile
    split
    · next hcond => exact ⟨fun _ => hcond, fun _ => rfl⟩
    · next hcond => exact ⟨fun hh => absurd hh (by simp), fun hc => absurd hc hcond⟩
  · intro hnone fs acc
    rw [runLoaderAux, hnone]

/-- Witness for the C7 amended theorem: the four-column file is skipped and
the loop continues with the rest of the file list. -/
theorem schema_checked_by_count_witness :
    runLoaderAux (fun _ => 0) 0 [fourColFile] [] = runLoaderAux (fun _ => 0) 1 [] [] :=
  (schema_checked_by_count (fun _ => 0) 0 fourColFile).2 (by decide) [] []

/-! ### C8 -/

/-- A raw row for key 1 at timestamp 5 from the first file. -/
def tieRowA : RawRow := ⟨"1", "a", "c", "7", "10", 5, "f1.csv"⟩

/-- A different raw row for key 1 at the same timestamp 5, from another
file. -/
def tieRowB : RawRow := ⟨"1", "b", "c", "7", "10", 5, "f2.csv"⟩

/-- C8 counterexample: the window query orders partitions only by
`ingest_time DESC`; with two equal-timestamp rows for one key both singleton
results satisfy the query's semantics, so the selected row is NOT determined
— no deterministic secondary order exists in the code. -/
theorem tie_break_nondeterministic :
    IsDedupChoice 0 [tieRowA, tieRowB] [tieRowA] ∧
    IsDedupChoice 0 [tieRowA, tieRowB] [tieRowB] ∧
    ([tieRowA] : List RawRow) ≠ [tieRowB] := by
  refine ⟨?_, ?_, by decide⟩
  · unfold IsDedupChoice
    decide
  · unfold IsDedupChoice
    decide

/-- C8 amended: the dedup step always yields a valid per-key choice of a
maximal-timestamp row (and, for a fixed physical row order, the
implementation picks the first such row deterministically), but when two
rows of one key share the identical ingestion timestamp the query admits
more than one output: no documented secondary order decides between them. -/
theorem dedup_is_valid_choice (cutoff : Nat) (bronze : List RawRow) :
    IsDedupChoice cutoff bronze (silverRaw cutoff bronze) :=
  ⟨fun _ hr => silverRaw_mem hr, fun _ hk => silverRaw_countP hk⟩

/-! ### C9 -/

/-- C9: empty input is not an error — with no landing files the whole
pipeline succeeds, the raw table gains zero rows and the current-state, fact
and dimension tables are produced empty; likewise, when the timestamp filter
leaves nothing to deduplicate, stages 4.2 and 4.3 still succeed and produce
empty tables. -/
theorem empty_input_success (clock : Nat → Nat) (cutoff procTime : Nat) (db : DB) :
    (∃ d, runPipeline clock cutoff procTime [] db = Except.ok d ∧
      d.bronze = some [] ∧ d.silver = some [] ∧ d.fato = some [] ∧ d.dim = some []) ∧
    (∀ db2 rows, db2.bronze = some rows → filtered cutoff rows = [] →
      ∃ d2, runSilverGold cutoff procTime db2 = Except.ok d2 ∧
        d2.silver = some [] ∧ d2.fato = some [] ∧ d2.dim = some []) := by
  constructor
  · exact ⟨_, rfl, rfl, rfl, rfl, rfl⟩
  · intro db2 rows hb hf
    have hsr : silverRaw cutoff rows = [] := by
      unfold silverRaw filtered
      unfold filtered at hf
      rw [hf]
      rfl
    have hcast : castAll procTime (silverRaw cutoff rows) = some [] := by
      rw [hsr]
      rfl
    exact ⟨_, runSilverGold_eq cutoff procTime db2 rows [] hb hcast, rfl, rfl, rfl⟩

/-- Witness for C9: a database whose single bronze row is older than the
cutoff; the downstream stages succeed and produce empty tables. -/
theorem empty_input_success_witness :
    ∃ d2, runSilverGold 3 9 dbPrev = Except.ok d2 ∧
      d2.silver = some [] ∧ d2.fato = some [] ∧ d2.dim = some [] :=
  (empty_input_success (fun _ => 0) 3 9 dbPrev).2 dbPrev [rowPrev] rfl (by decide)

/-! ### C10 -/

/-- C10: every row ingested from one file carries that file's single
wall-clock ingestion timestamp (taken once per file at line 74, at
one-second resolution) and the file's name; consequently any two rows coming
from the same file — in particular two versions of the same business key —
tie on the ingestion timestamp, and the dedup ordering between them is not
decided by the timestamp. -/
theorem one_timestamp_per_file (ts : Nat) (f : SourceFile) (rs : List RawRow)
    (h : loadFile ts f = some rs) :
    (∀ r ∈ rs, r.ingest_time = ts ∧ r.file_name = f.name) ∧
    ∀ r ∈ rs, ∀ r2 ∈ rs, r.ingest_time = r2.ingest_time := by
  have hall : ∀ r ∈ rs, r.ingest_time = ts ∧ r.file_name = f.name := by
    unfold loadFile at h
    split at h
    · simp only [Option.some.injEq] at h
      intro r hr
      rw [← h] at hr
      rcases List.mem_map.mp hr with ⟨row, _, hrow⟩
      rw [← hrow]
      exact ⟨rfl, rfl⟩
    · cases h
  refine ⟨hall, fun r hr r2 hr2 => ?_⟩
  rw [(hall r hr).1, (hall r2 hr2).1]

/-- Witness for C10 on the concrete well-formed landing file. -/
theorem one_timestamp_per_file_witness :
    (⟨"1", "n", "c", "7", "10", 42, "good.csv"⟩ : RawRow).ingest_time = 42 ∧
    (⟨"1", "n", "c", "7", "10", 42, "good.csv"⟩ : RawRow).file_name = goodFile.name :=
  (one_timestamp_per_file 42 goodFile
    [⟨"1", "n", "c", "7", "10", 42, "good.csv"⟩] rfl).1 _ (by decide)

end Ingestion
